import Mathlib

/-!
# Verification of the pet adoption system (`petadoptionsystem.cpp`)

A shallow embedding of the record types, persistence codec and repository
operations of the terminal pet-adoption program, together with proofs of the
behavioural properties claimed by its specification.

C++ `std::string` values are modelled as `List Char`; C++ `int` is modelled as
`Int` (no arithmetic in the program approaches the 32-bit bound on the inputs
considered); functions that throw are modelled with `Except` / `Option`.
-/

namespace PetAdoption

/-! ## Character and numeric string utilities -/

/-- The whitespace characters recognised by C `isspace` in the "C" locale:
space, tab, newline, vertical tab, form feed, carriage return. -/
def isSpaceChar (c : Char) : Bool :=
  c = ' ' || c = '\t' || c = '\n' || c = Char.ofNat 11 || c = Char.ofNat 12 || c = '\r'

/-- Decimal digit character for `d < 10`, i.e. code point `48 + d`. -/
def digitChar (d : Nat) : Char := Char.ofNat (48 + d)

/-- Accumulator worker printing `n` in decimal before `acc`
(the digit emission order of `std::to_string`). -/
def natToDigitsAux (n : Nat) (acc : List Char) : List Char :=
  if h : n < 10 then digitChar n :: acc
  else natToDigitsAux (n / 10) (digitChar (n % 10) :: acc)
  termination_by n
  decreasing_by
    exact Nat.div_lt_self (by omega) (by omega)

/-- Decimal representation of a natural number, most significant digit first. -/
def natToDigits (n : Nat) : List Char := natToDigitsAux n []

/-- Model of `std::to_string` on `int`: an optional minus sign followed by
the decimal digits of the magnitude. -/
def intToChars (n : Int) : List Char :=
  if n < 0 then '-' :: natToDigits (-n).toNat else natToDigits n.toNat

/-- Value of a decimal digit list read left to right. -/
def digitsToNat (l : List Char) : Nat :=
  l.foldl (fun a c => 10 * a + (c.toNat - 48)) 0

/-- Model of `std::stoi`: skip leading whitespace, accept an optional sign,
then consume the maximal run of decimal digits; failure (the C++ code would
throw `std::invalid_argument`) when no digit is found.  Overflow is not
modelled: no value handled by the program approaches the `int` bound. -/
def stoiChars (l : List Char) : Option Int :=
  let l1 := l.dropWhile isSpaceChar
  let negative := l1.head? = some '-'
  let l2 := if l1.head? = some '-' ∨ l1.head? = some '+' then l1.tail else l1
  let ds := l2.takeWhile Char.isDigit
  if ds.isEmpty then none
  else if negative then some (-(digitsToNat ds : Int))
  else some (digitsToNat ds : Int)

/-- Split a character list at its first comma: `some (before, after)` when a
comma occurs, `none` otherwise.  This models one step of the
`find(',') / substr` decomposition used by the deserializers. -/
def splitAtComma : List Char → Option (List Char × List Char)
  | [] => none
  | c :: cs =>
      if c = ',' then some ([], cs)
      else match splitAtComma cs with
           | none => none
           | some (a, b) => some (c :: a, b)

/-! ## Record types and persistence codec -/

/-- `Pet`: name, breed, age, vaccinated and adopted flags.  The C++
constructor `Pet(n, b, a, v)` always starts `adopted` at `false`. -/
structure Pet where
  name : List Char
  breed : List Char
  age : Int
  vaccinated : Bool
  adopted : Bool
  deriving DecidableEq

/-- The C++ constructor `Pet(string n, string b, int a, bool v)`:
`adopted` is initialised to `false`. -/
def Pet.create (n b : List Char) (a : Int) (v : Bool) : Pet :=
  { name := n, breed := b, age := a, vaccinated := v, adopted := false }

/-- `Pet::serialize`: `name,breed,age,vaccinated(0/1),adopted(0/1)`. -/
def Pet.serialize (p : Pet) : List Char :=
  p.name ++ [','] ++ p.breed ++ [','] ++ intToChars p.age ++ [','] ++
  (if p.vaccinated then ['1'] else ['0']) ++ [','] ++
  (if p.adopted then ['1'] else ['0'])

/-- `Pet::deserialize`: locate the first four commas (error when any is
missing), read the fields positionally, `stoi` the age, compare the boolean
tokens against `"1"`; the adopted token is everything after the fourth
comma. -/
def Pet.deserialize (data : List Char) : Option Pet := do
  let (name, r1) ← splitAtComma data
  let (breed, r2) ← splitAtComma r1
  let (ageStr, r3) ← splitAtComma r2
  let (vacStr, rest) ← splitAtComma r3
  let age ← stoiChars ageStr
  pure { name := name, breed := breed, age := age,
         vaccinated := vacStr = ['1'], adopted := rest = ['1'] }

/-- `Application`: id, applicant username, target pet name, status string.
The constructor starts the status at `"Pending"`; `approve`/`reject` set the
only other values the field ever takes. -/
structure Application where
  id : Int
  username : List Char
  petName : List Char
  status : List Char
  deriving DecidableEq

/-- The C++ constructor `Application(i, uname, pname)`: status `"Pending"`. -/
def Application.create (i : Int) (uname pname : List Char) : Application :=
  { id := i, username := uname, petName := pname, status := "Pending".data }

/-- `Application::approve`. -/
def Application.approve (a : Application) : Application :=
  { a with status := "Approved".data }

/-- `Application::reject`. -/
def Application.reject (a : Application) : Application :=
  { a with status := "Rejected".data }

/-- Default pet used with `List.getD` when reading a position of the pet
list in specification statements. -/
def dummyPet : Pet :=
  { name := [], breed := [], age := 0, vaccinated := false, adopted := false }

/-- Default application used with `List.getD` when reading a position of the
application list in specification statements. -/
def dummyApp : Application :=
  { id := 0, username := [], petName := [], status := [] }

/-- `Application::serialize`: `id,username,petName,status`. -/
def Application.serialize (a : Application) : List Char :=
  intToChars a.id ++ [','] ++ a.username ++ [','] ++ a.petName ++ [','] ++ a.status

/-- `Application::deserialize`: locate the first three commas (error when one
is missing), `stoi` the id, take the status as everything after the third
comma, rebuild through the constructor and `approve`/`reject`. -/
def Application.deserialize (data : List Char) : Option Application := do
  let (idStr, r1) ← splitAtComma data
  let (username, r2) ← splitAtComma r1
  let (petName, status) ← splitAtComma r2
  let id ← stoiChars idStr
  let base := Application.create id username petName
  pure (if status = "Approved".data then base.approve
        else if status = "Rejected".data then base.reject
        else base)

/-! ## Users, system state and repository operations -/

/-- User roles (`enum class Role`). -/
inductive Role where
  | ADMIN
  | USER
  deriving DecidableEq

/-- A stored user record: username, password, role (the data carried by the
C++ `User` hierarchy that the repository operations act on). -/
structure UserRec where
  username : List Char
  password : List Char
  role : Role
  deriving DecidableEq

/-- The mutable state of the singleton `PetAdoptionSystem`: the user, pet and
application lists together with the next application id. -/
structure SystemState where
  users : List UserRec
  pets : List Pet
  applications : List Application
  nextAppID : Int
  deriving DecidableEq

/-- The exceptions thrown by the repository operations. -/
inductive SysError where
  | invalidInput (msg : List Char)
  | outOfRange (msg : List Char)
  deriving DecidableEq

instance {ε α : Type} [DecidableEq ε] [DecidableEq α] : DecidableEq (Except ε α) :=
  fun a b =>
    match a, b with
    | .ok x, .ok y =>
        if h : x = y then .isTrue (by rw [h]) else .isFalse (by simp [h])
    | .error x, .error y =>
        if h : x = y then .isTrue (by rw [h]) else .isFalse (by simp [h])
    | .ok _, .error _ => .isFalse (by simp)
    | .error _, .ok _ => .isFalse (by simp)

/-- `PetAdoptionSystem::addPet`: unconditionally append a freshly
constructed (hence unadopted) pet. -/
def addPet (s : SystemState) (name breed : List Char) (age : Int) (vaccinated : Bool) :
    SystemState :=
  { s with pets := s.pets ++ [Pet.create name breed age vaccinated] }

/-- `PetAdoptionSystem::editPet`: bounds-checked field update. -/
def editPet (s : SystemState) (index : Nat) (name breed : List Char) (age : Int)
    (vaccinated : Bool) : Except SysError SystemState :=
  match s.pets.get? index with
  | none => .error (.outOfRange "Invalid pet index".data)
  | some p =>
      let p2 := { p with name := name, breed := breed, age := age, vaccinated := vaccinated }
      .ok { s with pets := s.pets.set index p2 }

/-- `PetAdoptionSystem::deletePet`: bounds-checked erase of the pet at
`index`; nothing else in the state is touched. -/
def deletePet (s : SystemState) (index : Nat) : Except SysError SystemState :=
  if index < s.pets.length then
    .ok { s with pets := s.pets.eraseIdx index }
  else
    .error (.outOfRange "Invalid pet index".data)

/-- `PetAdoptionSystem::createApplication`: append a pending application
carrying the current `nextAppID`, then increment `nextAppID`. -/
def createApplication (s : SystemState) (username petName : List Char) : SystemState :=
  { s with applications := s.applications ++ [Application.create s.nextAppID username petName],
           nextAppID := s.nextAppID + 1 }

/-- The approval loop of `processApplication`: scan the pets in order and
mark the first one whose name equals `petName` as adopted, leaving the rest
untouched (the loop `break`s after the first match). -/
def adoptFirstMatch (petName : List Char) : List Pet → List Pet
  | [] => []
  | p :: ps =>
      if p.name = petName then { p with adopted := true } :: ps
      else p :: adoptFirstMatch petName ps

/-- `PetAdoptionSystem::processApplication`: out-of-range error past the end
of the application list; on approve, set the status to Approved and run the
first-match adoption scan; on reject, set the status to Rejected and leave
the pets alone. -/
def processApplication (s : SystemState) (index : Nat) (approve : Bool) :
    Except SysError SystemState :=
  match s.applications.get? index with
  | none => .error (.outOfRange "Invalid application index".data)
  | some app =>
      if approve then
        .ok { s with applications := s.applications.set index app.approve,
                     pets := adoptFirstMatch app.petName s.pets }
      else
        .ok { s with applications := s.applications.set index app.reject }

/-- `PetAdoptionSystem::addUser`: unconditionally append the user record
(the duplicate check lives in the callers, `registerUser` and the admin
add-admin flow). -/
def addUser (s : SystemState) (u : UserRec) : SystemState :=
  { s with users := s.users ++ [u] }

/-- `PetAdoptionSystem::deleteUser`: bounds-checked erase. -/
def deleteUser (s : SystemState) (index : Nat) : Except SysError SystemState :=
  if index < s.users.length then
    .ok { s with users := s.users.eraseIdx index }
  else
    .error (.outOfRange "Invalid user index".data)

/-- `PetAdoptionSystem::updateUser`: bounds-checked username/password
rewrite. -/
def updateUser (s : SystemState) (index : Nat) (username password : List Char) :
    Except SysError SystemState :=
  match s.users.get? index with
  | none => .error (.outOfRange "Invalid user index".data)
  | some u =>
      let u2 := { u with username := username, password := password }
      .ok { s with users := s.users.set index u2 }

/-! ## Validators -/

/-- Alphanumeric in the sense of the character class `[A-Za-z0-9]` used by
the validation regexes. -/
def isAlphanumeric (c : Char) : Bool :=
  ('A' ≤ c && c ≤ 'Z') || ('a' ≤ c && c ≤ 'z') || ('0' ≤ c && c ≤ '9')

/-- Membership in the regex character class `[A-Za-z0-9 ]`. -/
def inUsernameClass (c : Char) : Bool :=
  isAlphanumeric c || c = ' '

/-- The adjacent-whitespace loop of `isValidUsername` / `isValidName`:
`for i in 1..size: if isspace(s[i]) && isspace(s[i-1]) return false`. -/
def noAdjacentSpaces : List Char → Bool
  | c1 :: c2 :: rest =>
      if isSpaceChar c2 && isSpaceChar c1 then false
      else noAdjacentSpaces (c2 :: rest)
  | _ => true

/-- `isValidUsername`: length in `[4, 20]`, full match of `^[A-Za-z0-9 ]+$`,
and no two adjacent whitespace characters. -/
def isValidUsername (u : List Char) : Bool :=
  if u.length < 4 || u.length > 20 then false
  else if !(!u.isEmpty && u.all inUsernameClass) then false
  else noAdjacentSpaces u

/-- `isValidPassword`: non-empty. -/
def isValidPassword (p : List Char) : Bool :=
  !p.isEmpty

/-- Core of `PetAdoptionSystem::registerUser` once the interactive input has
produced a username (which `getValidatedInput` guarantees is either valid or
the cancel token `"0"`) and a password: cancel on `"0"`, reject a username
already present in the user list, reject an invalid password, otherwise
append a regular user via `addUser`. -/
def registerUser (s : SystemState) (username password : List Char) :
    Except SysError SystemState :=
  if username = "0".data then .ok s
  else if s.users.any (fun u => u.username = username) then
    .error (.invalidInput "Username already exists".data)
  else if !isValidPassword password then
    .error (.invalidInput "Invalid password".data)
  else
    .ok (addUser s { username := username, password := password, role := Role.USER })

/-! ## Age parsing -/

/-- One attempt of the parsing loop in `getAgeInput`: a full match of
`^\d+$` is `stoi`ed directly; otherwise a full match of
`^(\d+)\s*(years?|months?)$` yields the number, divided by 12 when the unit
contains `"month"`; anything else is rejected (the interactive loop
reprompts). -/
def parseAgeInput (input : List Char) : Option Int :=
  if !input.isEmpty && input.all Char.isDigit then
    some (digitsToNat input : Int)
  else
    let ds := input.takeWhile Char.isDigit
    let rest := input.dropWhile Char.isDigit
    let unit := rest.dropWhile isSpaceChar
    if !ds.isEmpty
        && (unit = "year".data || unit = "years".data
            || unit = "month".data || unit = "months".data) then
      if decide (List.IsInfix "month".data unit) then some ((digitsToNat ds : Int) / 12)
      else some (digitsToNat ds : Int)
    else none

/-! ## File loading and system construction -/

/-- The pet-deserialization loop of `loadPetsFromFile`: parse each line,
silently skipping lines that fail to deserialize. -/
def loadPetLines (lines : List (List Char)) : List Pet :=
  lines.foldr
    (fun line acc =>
      match Pet.deserialize line with
      | some p => p :: acc
      | none => acc)
    []

/-- The application-deserialization loop of `loadApplicationsFromFile`:
parse each line, silently skipping lines that fail to deserialize. -/
def loadApplicationLines (lines : List (List Char)) : List Application :=
  lines.foldr
    (fun line acc =>
      match Application.deserialize line with
      | some a => a :: acc
      | none => acc)
    []

/-- `PetAdoptionSystem::loadApplicationsFromFile` on the contents of
`applications.dat` (`none` = the file does not exist, in which case the state
is untouched).  When the first line carries the `NEXT_ID:` header its value
replaces `nextAppID` (a non-numeric header value would make the uncaught
`stoi` throw: modelled as `none`); otherwise the reader rewinds and every
line, the first included, is parsed as an application. -/
def loadApplicationsFromFile (file : Option (List (List Char))) (s : SystemState) :
    Option SystemState :=
  match file with
  | none => some s
  | some [] => some { s with applications := [] }
  | some (first :: rest) =>
      if first.take 8 = "NEXT_ID:".data then
        match stoiChars (first.drop 8) with
        | some n => some { s with nextAppID := n, applications := loadApplicationLines rest }
        | none => none
      else
        some { s with applications := loadApplicationLines (first :: rest) }

/-- `PetAdoptionSystem::loadPetsFromFile` on the contents of `pets.dat`
(`none` = the file does not exist, which loads nothing). -/
def loadPetsFromFile (file : Option (List (List Char))) : List Pet :=
  match file with
  | none => []
  | some lines => loadPetLines lines

/-- The two pets seeded by the `PetAdoptionSystem` constructor when no pets
were loaded from `pets.dat`. -/
def defaultPets : List Pet :=
  [Pet.create "Whiskers".data "Siamese".data 2 true,
   Pet.create "Rex".data "Labrador".data 3 true]

/-- The pet-seeding portion of the `PetAdoptionSystem` constructor: load
`pets.dat` (`none` = file absent), and when the loaded list is empty push the
two default pets and persist them (`savePetsToFile` serializes the whole
list); when pets were loaded, keep exactly those and write nothing.  Returns
the resulting pet list and the lines written to `pets.dat`, if any. -/
def constructorPets (file : Option (List (List Char))) :
    List Pet × Option (List (List Char)) :=
  let loaded := loadPetsFromFile file
  if loaded.isEmpty then
    (defaultPets, some (defaultPets.map Pet.serialize))
  else
    (loaded, none)

/-- The freshly constructed system when none of the three `.dat` files
exists: the bootstrap admin, the two default pets, no applications,
`nextAppID = 1`. -/
def initialState : SystemState :=
  { users := [{ username := "admin".data, password := "admin123".data, role := Role.ADMIN }],
    pets := defaultPets,
    applications := [],
    nextAppID := 1 }

/-! ## The admin application-processing menu step -/

/-- The indices the admin menu offers for processing: positions of the
applications whose status is `"Pending"`, in list order. -/
def pendingIndices (s : SystemState) : List Nat :=
  (List.range s.applications.length).filter
    (fun i =>
      match s.applications.get? i with
      | some a => a.status = "Pending".data
      | none => false)

/-- One pass of admin dashboard option 4 (process applications): the menu
lists only the pending applications; `choice = 0` (or an empty list, or the
back action) cancels; otherwise the `choice`-th pending index is processed
with `approve`/`reject`.  `getNumericInput` bounds `choice` by the number of
pending applications, so the overflow arm is unreachable in the program and
modelled as a no-op. -/
def adminProcessStep (s : SystemState) (choice : Nat) (approve : Bool) :
    Except SysError SystemState :=
  if (pendingIndices s).isEmpty then .ok s
  else if choice = 0 then .ok s
  else
    match (pendingIndices s).get? (choice - 1) with
    | some appIdx => processApplication s appIdx approve
    | none => .ok s

/-! ## Reachability -/

/-- States reachable from the fresh-start construction by repository
operations (throwing calls leave the state unchanged, so only the `.ok`
results step). -/
inductive Reachable : SystemState → Prop
  | init : Reachable initialState
  | addPet (s : SystemState) (name breed : List Char) (age : Int) (v : Bool) :
      Reachable s → Reachable (addPet s name breed age v)
  | editPet (s s' : SystemState) (index : Nat) (name breed : List Char) (age : Int) (v : Bool) :
      Reachable s → editPet s index name breed age v = .ok s' → Reachable s'
  | deletePet (s s' : SystemState) (index : Nat) :
      Reachable s → deletePet s index = .ok s' → Reachable s'
  | createApplication (s : SystemState) (username petName : List Char) :
      Reachable s → Reachable (createApplication s username petName)
  | processApplication (s s' : SystemState) (index : Nat) (approve : Bool) :
      Reachable s → processApplication s index approve = .ok s' → Reachable s'
  | addUser (s : SystemState) (u : UserRec) :
      Reachable s → Reachable (addUser s u)
  | deleteUser (s s' : SystemState) (index : Nat) :
      Reachable s → deleteUser s index = .ok s' → Reachable s'
  | updateUser (s s' : SystemState) (index : Nat) (username password : List Char) :
      Reachable s → updateUser s index username password = .ok s' → Reachable s'
  | registerUser (s s' : SystemState) (username password : List Char) :
      Reachable s → registerUser s username password = .ok s' → Reachable s'

/-! ## Concrete states used in the counterexample theorems -/

/-- A state with two pets both named Rex: the first already adopted, the
second still available, plus a pending application for Rex. -/
def c1State : SystemState :=
  { users := initialState.users,
    pets := [{ Pet.create "Rex".data "Labrador".data 3 true with adopted := true },
             Pet.create "Rex".data "Shepherd".data 4 false],
    applications := [Application.create 1 "alice123".data "Rex".data],
    nextAppID := 2 }

/-- The state `processApplication c1State 0 true` produces: the application
is approved and the pet scan re-marks the already-adopted first Rex, so the
pet list is unchanged and the second Rex stays available. -/
def c1StateAfter : SystemState :=
  { c1State with
    applications := [(Application.create 1 "alice123".data "Rex".data).approve] }

/-- The reachable state holding one approved application for Rex:
construction with no data files, one application created, then approved. -/
def c3Pending : SystemState :=
  createApplication initialState "alice123".data "Rex".data

/-- Result of approving the single application of `c3Pending`. -/
def c3Approved : SystemState :=
  { users := initialState.users,
    pets := [Pet.create "Whiskers".data "Siamese".data 2 true,
             { Pet.create "Rex".data "Labrador".data 3 true with adopted := true }],
    applications := [(Application.create 1 "alice123".data "Rex".data).approve],
    nextAppID := 2 }

/-- Result of calling `processApplication 0 false` on `c3Approved`: the
Approved status is overwritten with Rejected. -/
def c3Rejected : SystemState :=
  { c3Approved with
    applications := [(Application.create 1 "alice123".data "Rex".data).reject] }

/-- A reachable state with a single pet Rex and a pending application for
it: construction with no data files, Whiskers deleted, application filed. -/
def c4State : SystemState :=
  { users := initialState.users,
    pets := [Pet.create "Rex".data "Labrador".data 3 true],
    applications := [Application.create 1 "alice123".data "Rex".data],
    nextAppID := 2 }

/-- The intermediate state of the trace reaching `c4State`: the fresh system
with its first pet deleted. -/
def c4Intermediate : SystemState :=
  { initialState with pets := [Pet.create "Rex".data "Labrador".data 3 true] }

/-- Result of deleting pet 0 of `c4State`: the pet list empties while the
pending application for Rex stays. -/
def c4After : SystemState :=
  { c4State with pets := [] }

/-- The state loaded from an `applications.dat` with no `NEXT_ID:` header
whose only record carries id 1: `nextAppID` keeps its default value 1. -/
def c6State : SystemState :=
  { initialState with
    applications := [(Application.create 1 "alice".data "Rex".data)] }

/-! ## List access helper lemmas -/

theorem get?_eq_some_getD {α : Type} (l : List α) (d : α) (i : Nat) (h : i < l.length) :
    l.get? i = some (l.getD i d) := by
  induction l generalizing i with
  | nil => simp at h
  | cons a t ih =>
      cases i with
      | zero => rfl
      | succ j => exact ih j (by simpa using h)

theorem getD_set_ne {α : Type} (l : List α) (i j : Nat) (x d : α) (h : i ≠ j) :
    (l.set i x).getD j d = l.getD j d := by
  rw [List.getD_eq_getD_get?, List.getD_eq_getD_get?, List.get?_set_ne x l h]

theorem getD_set_self {α : Type} (l : List α) (i : Nat) (x d : α) (h : i < l.length) :
    (l.set i x).getD i d = x := by
  rw [List.getD_eq_getD_get?, List.get?_set_eq_of_lt x h]
  rfl

theorem getD_append_length {α : Type} (l : List α) (x d : α) :
    (l ++ [x]).getD l.length d = x := by
  induction l with
  | nil => rfl
  | cons a t ih => simp only [List.cons_append, List.length_cons, List.getD_cons_succ, ih]

/-! ## Decimal digit printing and parsing -/

theorem digitChar_spec (d : Nat) (h : d < 10) :
    (digitChar d).isDigit = true ∧ digitChar d ≠ ',' ∧ (digitChar d).toNat - 48 = d
      ∧ isSpaceChar (digitChar d) = false ∧ digitChar d ≠ '-' ∧ digitChar d ≠ '+' := by
  interval_cases d <;> refine ⟨by decide, by decide, by decide, by decide, by decide, by decide⟩

theorem natToDigitsAux_eq_append (n : Nat) : ∀ acc, natToDigitsAux n acc = natToDigits n ++ acc := by
  induction n using Nat.strong_induction_on with
  | _ n ih =>
      intro acc
      by_cases h : n < 10
      · rw [natToDigitsAux, dif_pos h, natToDigits, natToDigitsAux, dif_pos h]
        rfl
      · have hlt : n / 10 < n := Nat.div_lt_self (by omega) (by omega)
        rw [natToDigitsAux, dif_neg h, ih (n / 10) hlt]
        conv_rhs => rw [natToDigits, natToDigitsAux, dif_neg h, ih (n / 10) hlt]
        rw [List.append_assoc]
        rfl

theorem natToDigits_eq (n : Nat) :
    natToDigits n =
      if n < 10 then [digitChar n]
      else natToDigits (n / 10) ++ [digitChar (n % 10)] := by
  by_cases h : n < 10
  · rw [if_pos h, natToDigits, natToDigitsAux, dif_pos h]
  · rw [if_neg h, natToDigits, natToDigitsAux, dif_neg h, natToDigitsAux_eq_append]

theorem natToDigits_mem (n : Nat) :
    ∀ c ∈ natToDigits n, c.isDigit = true ∧ c ≠ ',' := by
  induction n using Nat.strong_induction_on with
  | _ n ih =>
      intro c hc
      rw [natToDigits_eq] at hc
      by_cases h : n < 10
      · rw [if_pos h] at hc
        rcases List.mem_singleton.mp hc with rfl
        exact ⟨(digitChar_spec n h).1, (digitChar_spec n h).2.1⟩
      · rw [if_neg h] at hc
        rcases List.mem_append.mp hc with h1 | h1
        · exact ih (n / 10) (Nat.div_lt_self (by omega) (by omega)) c h1
        · rcases List.mem_singleton.mp h1 with rfl
          have h10 : n % 10 < 10 := Nat.mod_lt n (by omega)
          exact ⟨(digitChar_spec _ h10).1, (digitChar_spec _ h10).2.1⟩

theorem natToDigits_ne_nil (n : Nat) : natToDigits n ≠ [] := by
  rw [natToDigits_eq]
  by_cases h : n < 10
  · simp [h]
  · simp [h]

theorem digitsToNat_append_singleton (l : List Char) (c : Char) :
    digitsToNat (l ++ [c]) = 10 * digitsToNat l + (c.toNat - 48) := by
  rw [digitsToNat, List.foldl_append]
  rfl

theorem digitsToNat_natToDigits (n : Nat) : digitsToNat (natToDigits n) = n := by
  induction n using Nat.strong_induction_on with
  | _ n ih =>
      rw [natToDigits_eq]
      by_cases h : n < 10
      · rw [if_pos h]
        show 10 * 0 + ((digitChar n).toNat - 48) = n
        rw [(digitChar_spec n h).2.2.1]
        omega
      · rw [if_neg h]
        rw [digitsToNat_append_singleton,
            ih (n / 10) (Nat.div_lt_self (by omega) (by omega))]
        have h10 : n % 10 < 10 := Nat.mod_lt n (by omega)
        rw [(digitChar_spec _ h10).2.2.1]
        omega

theorem takeWhile_eq_self_of_all {p : Char → Bool} (l : List Char)
    (h : ∀ c ∈ l, p c = true) : l.takeWhile p = l := by
  induction l with
  | nil => rfl
  | cons c t ih =>
      rw [List.takeWhile_cons, if_pos (h c (List.mem_cons_self c t))]
      rw [ih (fun x hx => h x (List.mem_cons_of_mem c hx))]

theorem isSpaceChar_false_of_isDigit (c : Char) (h : c.isDigit = true) :
    isSpaceChar c = false := by
  cases hs : isSpaceChar c
  · rfl
  · exfalso
    rw [isSpaceChar] at hs
    simp only [Bool.or_eq_true, decide_eq_true_eq] at hs
    rcases hs with ((((h1 | h1) | h1) | h1) | h1) | h1 <;> subst h1 <;> revert h <;> decide

theorem stoi_all_digits (l : List Char) (hne : l ≠ [])
    (hd : ∀ c ∈ l, c.isDigit = true) : stoiChars l = some (digitsToNat l : Int) := by
  obtain ⟨c, t, rfl⟩ : ∃ c t, l = c :: t := by
    cases l with
    | nil => exact absurd rfl hne
    | cons c t => exact ⟨c, t, rfl⟩
  have hc : c.isDigit = true := hd c (List.mem_cons_self c t)
  have hdrop : (c :: t).dropWhile isSpaceChar = c :: t := by
    rw [List.dropWhile_cons, if_neg]
    rw [isSpaceChar_false_of_isDigit c hc]
    simp
  have hcm : c ≠ '-' := by
    intro h
    subst h
    exact absurd hc (by decide)
  have hcp : c ≠ '+' := by
    intro h
    subst h
    exact absurd hc (by decide)
  have htake : (c :: t).takeWhile Char.isDigit = c :: t := takeWhile_eq_self_of_all _ hd
  simp only [stoiChars, hdrop, List.head?_cons]
  have hsel : (if some c = some '-' ∨ some c = some '+' then (c :: t).tail else (c :: t))
      = c :: t := if_neg (by simp [hcm, hcp])
  rw [hsel, htake]
  rw [if_neg (by simp : ¬((c :: t).isEmpty = true))]
  rw [if_neg (by simp [hcm] : ¬(some c = some '-'))]

theorem stoiChars_intToChars (n : Int) : stoiChars (intToChars n) = some n := by
  by_cases h : n < 0
  · rw [intToChars, if_pos h]
    set m := (-n).toNat with hmdef
    have hdrop : ('-' :: natToDigits m).dropWhile isSpaceChar = '-' :: natToDigits m := by
      rw [List.dropWhile_cons, if_neg (by decide)]
    have htake : (natToDigits m).takeWhile Char.isDigit = natToDigits m :=
      takeWhile_eq_self_of_all _ (fun c hc => (natToDigits_mem m c hc).1)
    have hnn : (natToDigits m).isEmpty = false := by
      cases hh : natToDigits m with
      | nil => exact absurd hh (natToDigits_ne_nil m)
      | cons a b => rfl
    simp only [stoiChars, hdrop, List.head?_cons]
    rw [if_pos (Or.inl trivial)]
    simp only [List.tail_cons, htake]
    rw [if_neg (by simp [hnn])]
    rw [if_pos trivial]
    rw [digitsToNat_natToDigits]
    congr 1
    omega
  · rw [intToChars, if_neg h]
    have hm : (n.toNat : Int) = n := Int.toNat_of_nonneg (by omega)
    rw [stoi_all_digits _ (natToDigits_ne_nil n.toNat)
      (fun c hc => (natToDigits_mem n.toNat c hc).1)]
    rw [digitsToNat_natToDigits, hm]

/-! ## Serialization round trips -/

theorem splitAtComma_append (a b : List Char) (ha : ',' ∉ a) :
    splitAtComma (a ++ ',' :: b) = some (a, b) := by
  induction a with
  | nil => rfl
  | cons c t ih =>
      have hc : c ≠ ',' := fun h => ha (h ▸ List.mem_cons_self c t)
      rw [List.cons_append, splitAtComma, if_neg hc,
        ih (fun h => ha (List.mem_cons_of_mem c h))]

theorem intToChars_no_comma (n : Int) : ',' ∉ intToChars n := by
  rw [intToChars]
  by_cases h : n < 0
  · rw [if_pos h]
    intro hmem
    rcases List.mem_cons.mp hmem with h1 | h1
    · exact absurd h1 (by decide)
    · exact (natToDigits_mem _ ',' h1).2 rfl
  · rw [if_neg h]
    intro hmem
    exact (natToDigits_mem _ ',' hmem).2 rfl

theorem pet_deserialize_chain (name breed ageStr vtok adtok : List Char)
    (h1 : ',' ∉ name) (h2 : ',' ∉ breed) (h3 : ',' ∉ ageStr) (h4 : ',' ∉ vtok) :
    Pet.deserialize (name ++ ',' :: (breed ++ ',' :: (ageStr ++ ',' :: (vtok ++ ',' :: adtok))))
      = (stoiChars ageStr).bind (fun age =>
          some { name := name, breed := breed, age := age,
                 vaccinated := decide (vtok = ['1']), adopted := decide (adtok = ['1']) }) := by
  simp only [Pet.deserialize, splitAtComma_append name _ h1, splitAtComma_append breed _ h2,
    splitAtComma_append ageStr _ h3, splitAtComma_append vtok _ h4,
    Option.bind_eq_bind, Option.some_bind, Option.pure_def]

theorem pet_deserialize_serialize (p : Pet) (h1 : ',' ∉ p.name) (h2 : ',' ∉ p.breed) :
    Pet.deserialize (Pet.serialize p) = some p := by
  obtain ⟨name, breed, age, vacc, adopted⟩ := p
  have h1' : ',' ∉ name := h1
  have h2' : ',' ∉ breed := h2
  have hser : Pet.serialize ⟨name, breed, age, vacc, adopted⟩
      = name ++ ',' :: (breed ++ ',' :: (intToChars age ++ ',' ::
          ((if vacc then ['1'] else ['0']) ++ ',' :: (if adopted then ['1'] else ['0'])))) := by
    simp [Pet.serialize, List.append_assoc]
  rw [hser, pet_deserialize_chain name breed (intToChars age) _ _ h1' h2'
    (intToChars_no_comma age) (by cases vacc <;> decide), stoiChars_intToChars]
  simp only [Option.some_bind, Option.some_inj]
  cases vacc <;> cases adopted <;> simp

theorem app_deserialize_chain (idStr username petName status : List Char)
    (h1 : ',' ∉ idStr) (h2 : ',' ∉ username) (h3 : ',' ∉ petName) :
    Application.deserialize (idStr ++ ',' :: (username ++ ',' :: (petName ++ ',' :: status)))
      = (stoiChars idStr).bind (fun id =>
          some (if status = "Approved".data then (Application.create id username petName).approve
                else if status = "Rejected".data
                then (Application.create id username petName).reject
                else Application.create id username petName)) := by
  simp only [Application.deserialize, splitAtComma_append idStr _ h1,
    splitAtComma_append username _ h2, splitAtComma_append petName _ h3,
    Option.bind_eq_bind, Option.some_bind, Option.pure_def]

theorem application_deserialize_serialize (a : Application) (h3 : ',' ∉ a.username)
    (h4 : ',' ∉ a.petName)
    (h5 : a.status = "Pending".data ∨ a.status = "Approved".data
          ∨ a.status = "Rejected".data) :
    Application.deserialize (Application.serialize a) = some a := by
  obtain ⟨id, username, petName, status⟩ := a
  have h3' : ',' ∉ username := h3
  have h4' : ',' ∉ petName := h4
  have hser : Application.serialize ⟨id, username, petName, status⟩
      = intToChars id ++ ',' :: (username ++ ',' :: (petName ++ ',' :: status)) := by
    simp [Application.serialize, List.append_assoc]
  rw [hser, app_deserialize_chain (intToChars id) username petName status
    (intToChars_no_comma id) h3' h4', stoiChars_intToChars]
  simp only [Option.some_bind, Option.some_inj]
  rcases h5 with h5 | h5 | h5 <;> subst h5
  · rw [if_neg (by decide), if_neg (by decide)]
    rfl
  · rw [if_pos rfl]
    rfl
  · rw [if_neg (by decide), if_pos rfl]
    rfl

/-- Claim C2: for every Pet and every Application whose string fields are
valid (the status is one of Pending/Approved/Rejected) and contain no comma,
deserializing the serialization reproduces the record exactly; the
vaccinated and adopted booleans round-trip through the "0"/"1" tokens. -/
theorem serialize_roundTrip (p : Pet) (a : Application)
    (h1 : ',' ∉ p.name) (h2 : ',' ∉ p.breed)
    (h3 : ',' ∉ a.username) (h4 : ',' ∉ a.petName)
    (h5 : a.status = "Pending".data ∨ a.status = "Approved".data
          ∨ a.status = "Rejected".data) :
    Pet.deserialize (Pet.serialize p) = some p
    ∧ Application.deserialize (Application.serialize a) = some a :=
  ⟨pet_deserialize_serialize p h1 h2, application_deserialize_serialize a h3 h4 h5⟩

/-- Concrete instance of the round-trip theorem: an adopted vaccinated pet
and an approved application survive the codec unchanged. -/
theorem serialize_roundTrip_witness :
    Pet.deserialize (Pet.serialize
      { name := "Rex".data, breed := "Labrador".data, age := 3,
        vaccinated := true, adopted := true })
      = some { name := "Rex".data, breed := "Labrador".data, age := 3,
               vaccinated := true, adopted := true }
    ∧ Application.deserialize (Application.serialize
        { id := 7, username := "alice123".data, petName := "Rex".data,
          status := "Approved".data })
      = some { id := 7, username := "alice123".data, petName := "Rex".data,
               status := "Approved".data } :=
  serialize_roundTrip
    { name := "Rex".data, breed := "Labrador".data, age := 3,
      vaccinated := true, adopted := true }
    { id := 7, username := "alice123".data, petName := "Rex".data,
      status := "Approved".data }
    (by decide) (by decide) (by decide) (by decide) (Or.inr (Or.inl rfl))

/-! ## Username validation -/

theorem inUsernameClass_iff (c : Char) :
    inUsernameClass c = true ↔ isAlphanumeric c = true ∨ c = ' ' := by
  rw [inUsernameClass]
  simp [Bool.or_eq_true, decide_eq_true_eq]

theorem isSpaceChar_iff_space_of_class (c : Char) (h : inUsernameClass c = true) :
    isSpaceChar c = true ↔ c = ' ' := by
  constructor
  · intro hs
    rw [isSpaceChar] at hs
    simp only [Bool.or_eq_true, decide_eq_true_eq] at hs
    rcases hs with ((((h1 | h1) | h1) | h1) | h1) | h1
    · exact h1
    all_goals (subst h1; revert h; decide)
  · intro h1
    subst h1
    decide

theorem cons_cons_no_double (c1 c2 : Char) (rest : List Char) :
    (∀ l1 l2, c1 :: c2 :: rest ≠ l1 ++ ' ' :: ' ' :: l2) ↔
      ¬(c1 = ' ' ∧ c2 = ' ') ∧ ∀ l1 l2, c2 :: rest ≠ l1 ++ ' ' :: ' ' :: l2 := by
  constructor
  · intro h
    refine ⟨?_, ?_⟩
    · rintro ⟨rfl, rfl⟩
      exact h [] rest rfl
    · intro l1 l2 heq
      exact h (c1 :: l1) l2 (by rw [heq]; rfl)
  · rintro ⟨hne, htail⟩ l1 l2 heq
    cases l1 with
    | nil =>
        injection heq with e1 e2
        injection e2 with e2a _
        exact hne ⟨e1, e2a⟩
    | cons d l1t =>
        injection heq with _ e2
        exact htail l1t l2 e2

theorem noAdjacentSpaces_iff (u : List Char) (hcls : ∀ c ∈ u, inUsernameClass c = true) :
    noAdjacentSpaces u = true ↔ ∀ l1 l2, u ≠ l1 ++ ' ' :: ' ' :: l2 := by
  induction u with
  | nil =>
      constructor
      · intro _ l1 l2 heq
        have := congrArg List.length heq
        simp at this
        omega
      · intro _
        rfl
  | cons c1 t ih =>
      cases t with
      | nil =>
          constructor
          · intro _ l1 l2 heq
            have := congrArg List.length heq
            simp at this
            omega
          · intro _
            rfl
      | cons c2 rest =>
          have h1 : inUsernameClass c1 = true := hcls c1 (by simp)
          have h2 : inUsernameClass c2 = true := hcls c2 (by simp)
          have htcls : ∀ c ∈ c2 :: rest, inUsernameClass c = true :=
            fun c hc => hcls c (List.mem_cons_of_mem c1 hc)
          rw [cons_cons_no_double, noAdjacentSpaces]
          by_cases hsp : c1 = ' ' ∧ c2 = ' '
          · rcases hsp with ⟨e1, e2⟩
            subst e1
            subst e2
            rw [if_pos (by decide)]
            simp
          · have hcond : (isSpaceChar c2 && isSpaceChar c1) = false := by
              cases hx : isSpaceChar c2
              · rfl
              · cases hy : isSpaceChar c1
                · rfl
                · exact absurd ⟨(isSpaceChar_iff_space_of_class c1 h1).mp hy,
                    (isSpaceChar_iff_space_of_class c2 h2).mp hx⟩ hsp
            rw [if_neg (by simp [hcond])]
            rw [ih htcls]
            simp [hsp]

/-- Claim C7: isValidUsername accepts exactly the strings of length 4 to 20
made of alphanumerics and spaces with no two adjacent spaces, and rejects
every string violating one of the three rules. -/
theorem isValidUsername_spec (u : List Char) :
    isValidUsername u = true ↔
      4 ≤ u.length ∧ u.length ≤ 20
      ∧ (∀ c ∈ u, isAlphanumeric c = true ∨ c = ' ')
      ∧ ∀ l1 l2, u ≠ l1 ++ ' ' :: ' ' :: l2 := by
  rw [isValidUsername]
  by_cases hlen : u.length < 4 ∨ u.length > 20
  · rw [if_pos (by simp only [Bool.or_eq_true, decide_eq_true_eq]; exact hlen)]
    simp only [Bool.false_eq_true, false_iff]
    rintro ⟨ha, hb, _⟩
    omega
  · push_neg at hlen
    rw [if_neg (by simp only [Bool.or_eq_true, decide_eq_true_eq]; omega)]
    have hne : u.isEmpty = false := by
      cases u with
      | nil => simp at hlen
      | cons c t => rfl
    by_cases hall : u.all inUsernameClass = true
    · rw [if_neg (by simp [hne, hall])]
      have hcls : ∀ c ∈ u, inUsernameClass c = true := List.all_eq_true.mp hall
      rw [noAdjacentSpaces_iff u hcls]
      have hthird : ∀ c ∈ u, isAlphanumeric c = true ∨ c = ' ' :=
        fun c hc => (inUsernameClass_iff c).mp (hcls c hc)
      constructor
      · intro h
        exact ⟨by omega, by omega, hthird, h⟩
      · rintro ⟨_, _, _, h⟩
        exact h
    · rw [if_pos (by simp [hne, hall])]
      simp only [Bool.false_eq_true, false_iff]
      rintro ⟨_, _, hc, _⟩
      exact hall (List.all_eq_true.mpr
        (fun c hcm => (inUsernameClass_iff c).mpr (hc c hcm)))

/-- Concrete instance of the username characterization: a valid username
with an interior space is accepted. -/
theorem isValidUsername_spec_witness :
    4 ≤ ("john doe1".data).length ∧ ("john doe1".data).length ≤ 20
    ∧ (∀ c ∈ "john doe1".data, isAlphanumeric c = true ∨ c = ' ')
    ∧ ∀ l1 l2, "john doe1".data ≠ l1 ++ ' ' :: ' ' :: l2 :=
  (isValidUsername_spec "john doe1".data).mp (by decide)

/-! ## Age parsing -/

theorem isDigit_false_of_isSpaceChar (c : Char) (h : isSpaceChar c = true) :
    c.isDigit = false := by
  rw [isSpaceChar] at h
  simp only [Bool.or_eq_true, decide_eq_true_eq] at h
  rcases h with ((((h1 | h1) | h1) | h1) | h1) | h1 <;> subst h1 <;> decide

theorem takeWhile_dropWhile_append {p : Char → Bool} (a b : List Char)
    (ha : ∀ c ∈ a, p c = true) (hb : ∀ c, b.head? = some c → p c = false) :
    (a ++ b).takeWhile p = a ∧ (a ++ b).dropWhile p = b := by
  induction a with
  | nil =>
      simp only [List.nil_append]
      cases b with
      | nil => exact ⟨rfl, rfl⟩
      | cons c t =>
          have hc := hb c rfl
          rw [List.takeWhile_cons, List.dropWhile_cons, hc]
          simp
  | cons c a' ih =>
      have hc : p c = true := ha c (by simp)
      have ih' := ih (fun x hx => ha x (List.mem_cons_of_mem c hx))
      rw [List.cons_append, List.takeWhile_cons, List.dropWhile_cons, hc]
      simp only [if_true]
      exact ⟨by rw [ih'.1], by rw [ih'.2]⟩

/-- Claim C8: one attempt of the age-parsing loop accepts a bare digit
string as years, a number followed by optional whitespace and a year unit as
that number of years, and a number with a month unit as the number
floor-divided by 12; in particular "6 months" parses to 0, "18 months" to 1,
"3 years" to 3 and bare "5" to 5. -/
theorem parseAgeInput_spec :
    (∀ ds : List Char, ds ≠ [] → (∀ c ∈ ds, c.isDigit = true) →
        parseAgeInput ds = some (digitsToNat ds : Int))
    ∧ (∀ ds sp u : List Char, ds ≠ [] → (∀ c ∈ ds, c.isDigit = true) →
        (∀ c ∈ sp, isSpaceChar c = true) →
        (u = "year".data ∨ u = "years".data) →
        parseAgeInput (ds ++ sp ++ u) = some (digitsToNat ds : Int))
    ∧ (∀ ds sp u : List Char, ds ≠ [] → (∀ c ∈ ds, c.isDigit = true) →
        (∀ c ∈ sp, isSpaceChar c = true) →
        (u = "month".data ∨ u = "months".data) →
        parseAgeInput (ds ++ sp ++ u) = some ((digitsToNat ds : Int) / 12))
    ∧ parseAgeInput "6 months".data = some 0
    ∧ parseAgeInput "18 months".data = some 1
    ∧ parseAgeInput "3 years".data = some 3
    ∧ parseAgeInput "5".data = some 5 := by
  have hyu : ∀ (u : List Char), u = "year".data ∨ u = "years".data
      ∨ u = "month".data ∨ u = "months".data →
      (∀ c, u.head? = some c → Char.isDigit c = false)
      ∧ (∀ c, u.head? = some c → isSpaceChar c = false) := by
    intro u hu
    rcases hu with rfl | rfl | rfl | rfl <;>
      exact ⟨fun c hc => by injection hc with e; subst e; decide,
             fun c hc => by injection hc with e; subst e; decide⟩
  have main : ∀ ds sp u : List Char, ds ≠ [] → (∀ c ∈ ds, c.isDigit = true) →
      (∀ c ∈ sp, isSpaceChar c = true) →
      u = "year".data ∨ u = "years".data ∨ u = "month".data ∨ u = "months".data →
      parseAgeInput (ds ++ sp ++ u)
        = (if decide (List.IsInfix "month".data u) then some ((digitsToNat ds : Int) / 12)
           else some (digitsToNat ds : Int)) := by
    intro ds sp u hne hds hsp hu
    have hu' := hyu u hu
    have hune : u ≠ [] := by
      rcases hu with rfl | rfl | rfl | rfl <;> decide
    have hbhead : ∀ c, (sp ++ u).head? = some c → Char.isDigit c = false := by
      intro c hc
      cases sp with
      | nil => exact hu'.1 c hc
      | cons s t =>
          rw [List.cons_append, List.head?_cons] at hc
          injection hc with e
          subst e
          exact isDigit_false_of_isSpaceChar _ (hsp _ (List.mem_cons_self _ _))
    have hsplit := takeWhile_dropWhile_append ds (sp ++ u) hds hbhead
    have hsplit2 := takeWhile_dropWhile_append sp u hsp hu'.2
    have hnotall : ((ds ++ sp ++ u).all Char.isDigit) = false := by
      rcases List.exists_cons_of_ne_nil hune with ⟨c0, u', rfl⟩
      have hc0 : Char.isDigit c0 = false := hu'.1 c0 rfl
      have hmem : c0 ∈ ds ++ sp ++ c0 :: u' := by simp
      cases hall : (ds ++ sp ++ c0 :: u').all Char.isDigit
      · rfl
      · exact absurd (List.all_eq_true.mp hall c0 hmem) (by simp [hc0])
    have hdsne : ds.isEmpty = false := by
      cases hds' : ds with
      | nil => exact absurd hds' hne
      | cons a b => rfl
    rw [parseAgeInput]
    rw [if_neg (by rw [hnotall]; simp)]
    rw [List.append_assoc]
    simp only [hsplit.1, hsplit.2, hsplit2.1, hsplit2.2]
    rw [if_pos]
    simp only [hdsne, Bool.not_false, Bool.true_and, Bool.or_eq_true, decide_eq_true_eq]
    tauto
  refine ⟨?_, ?_, ?_, ?_, ?_, ?_, ?_⟩
  · intro ds hne hds
    rw [parseAgeInput, if_pos]
    have : ds.isEmpty = false := by
      cases hds' : ds with
      | nil => exact absurd hds' hne
      | cons a b => rfl
    simp [this, List.all_eq_true.mpr hds]
  · intro ds sp u hne hds hsp hu
    rw [main ds sp u hne hds hsp (by tauto)]
    rw [if_neg]
    simp only [decide_eq_true_eq]
    rcases hu with rfl | rfl <;> decide
  · intro ds sp u hne hds hsp hu
    rw [main ds sp u hne hds hsp (by tauto)]
    rw [if_pos]
    simp only [decide_eq_true_eq]
    rcases hu with rfl | rfl <;> decide
  · decide
  · decide
  · decide
  · decide

/-- Concrete instance of the year-unit clause of the age-parsing theorem. -/
theorem parseAgeInput_spec_witness :
    parseAgeInput ("2".data ++ " ".data ++ "years".data)
      = some (digitsToNat "2".data : Int) :=
  parseAgeInput_spec.2.1 "2".data " ".data "years".data (by decide)
    (by decide) (by decide) (Or.inr rfl)

/-! ## Processing applications -/

theorem adoptFirstMatch_no_match (petName : List Char) (pets : List Pet)
    (h : ∀ p ∈ pets, p.name ≠ petName) : adoptFirstMatch petName pets = pets := by
  induction pets with
  | nil => rfl
  | cons p ps ih =>
      rw [adoptFirstMatch, if_neg (h p (List.mem_cons_self p ps))]
      rw [ih (fun q hq => h q (List.mem_cons_of_mem p hq))]

theorem adoptFirstMatch_eq_set (petName : List Char) (pets : List Pet) (j : Nat)
    (hj : j < pets.length)
    (hm : (pets.getD j dummyPet).name = petName)
    (hf : ∀ k, k < j → (pets.getD k dummyPet).name ≠ petName) :
    adoptFirstMatch petName pets
      = pets.set j { pets.getD j dummyPet with adopted := true } := by
  induction pets generalizing j with
  | nil => simp at hj
  | cons p ps ih =>
      cases j with
      | zero =>
          have hm0 : p.name = petName := hm
          rw [adoptFirstMatch, if_pos hm0]
          rfl
      | succ j' =>
          have hp : p.name ≠ petName := hf 0 (Nat.succ_pos j')
          rw [adoptFirstMatch, if_neg hp]
          have hj' : j' < ps.length := by simpa using hj
          have hm' : (ps.getD j' dummyPet).name = petName := hm
          have hf' : ∀ k, k < j' → (ps.getD k dummyPet).name ≠ petName :=
            fun k hk => hf (k + 1) (by omega)
          rw [ih j' hj' hm' hf']
          rfl

/-- Counterexample to claim C1: with two pets named Rex — the first already
adopted, the second still available — approving an application for Rex does
not set the adopted flag of the first unadopted matching pet (pet 1): the
scan re-marks the already-adopted pet 0 and stops, leaving pet 1
available. -/
theorem processApplication_skips_unadopted_duplicate :
    ((c1State.pets.getD 1 dummyPet).name = (c1State.applications.getD 0 dummyApp).petName
      ∧ (c1State.pets.getD 1 dummyPet).adopted = false)
    ∧ ((c1State.pets.getD 0 dummyPet).name = (c1State.applications.getD 0 dummyApp).petName
      ∧ (c1State.pets.getD 0 dummyPet).adopted = true)
    ∧ processApplication c1State 0 true = .ok c1StateAfter
    ∧ (c1StateAfter.pets.getD 1 dummyPet).adopted = false
    ∧ (c1StateAfter.applications.getD 0 dummyApp).status = "Approved".data := by
  refine ⟨⟨by decide, by decide⟩, ⟨by decide, by decide⟩, ?_, by decide, by decide⟩
  decide

/-- Claim C1 (amended): for every in-bounds application index, approving
marks the first pet whose name equals the application's petName as adopted —
regardless of whether that pet was already adopted, so a later unadopted pet
of the same name is not touched — and sets the status to Approved; rejecting
sets the status to Rejected and leaves every pet unchanged. -/
theorem processApplication_first_name_match (s : SystemState) (index j : Nat)
    (app : Application) (happ : s.applications.get? index = some app)
    (hj : j < s.pets.length)
    (hm : (s.pets.getD j dummyPet).name = app.petName)
    (hf : ∀ k, k < j → (s.pets.getD k dummyPet).name ≠ app.petName) :
    processApplication s index true =
      .ok { s with applications := s.applications.set index app.approve,
                   pets := s.pets.set j { s.pets.getD j dummyPet with adopted := true } }
    ∧ processApplication s index false =
      .ok { s with applications := s.applications.set index app.reject } := by
  constructor
  · simp only [processApplication, happ, eq_self_iff_true, if_true]
    rw [adoptFirstMatch_eq_set app.petName s.pets j hj hm hf]
  · simp only [processApplication, happ, Bool.false_eq_true, if_false]

/-- Concrete instance of the amended C1 theorem: in the fresh system with an
application for Rex, approving adopts the second pet (the first and only
name match) and rejecting leaves both pets available. -/
theorem processApplication_first_name_match_witness :
    processApplication c3Pending 0 true =
      .ok { c3Pending with
            applications := c3Pending.applications.set 0
              (Application.create 1 "alice123".data "Rex".data).approve,
            pets := c3Pending.pets.set 1
              { c3Pending.pets.getD 1 dummyPet with adopted := true } }
    ∧ processApplication c3Pending 0 false =
      .ok { c3Pending with
            applications := c3Pending.applications.set 0
              (Application.create 1 "alice123".data "Rex".data).reject } :=
  processApplication_first_name_match c3Pending 0 1
    (Application.create 1 "alice123".data "Rex".data)
    (by decide) (by decide) (by decide)
    (fun k hk => by interval_cases k; decide)

/-- Claim C9: for an in-bounds index, approving succeeds even when no pet
name matches the application's petName — the status still becomes Approved
and the pet list is untouched; an in-bounds call never throws, and an index
past the end of the application list throws exactly the out-of-range
error. -/
theorem processApplication_total_on_inbounds (s : SystemState) (index : Nat)
    (approve : Bool) :
    (index < s.applications.length →
      (∀ p ∈ s.pets, p.name ≠ (s.applications.getD index dummyApp).petName) →
      processApplication s index true =
        .ok { s with applications :=
                s.applications.set index (s.applications.getD index dummyApp).approve })
    ∧ (index < s.applications.length →
        ∀ e, processApplication s index approve ≠ .error e)
    ∧ (s.applications.length ≤ index →
        processApplication s index approve
          = .error (.outOfRange "Invalid application index".data)) := by
  refine ⟨?_, ?_, ?_⟩
  · intro h hnm
    simp only [processApplication, get?_eq_some_getD s.applications dummyApp index h,
      eq_self_iff_true, if_true]
    rw [adoptFirstMatch_no_match _ _ hnm]
  · intro h e
    simp only [processApplication, get?_eq_some_getD s.applications dummyApp index h]
    cases approve <;> simp
  · intro h
    simp only [processApplication, List.get?_eq_none.mpr h]

/-- Concrete instance of the C9 theorem: approving an application for a pet
name absent from the pet list (Bella) succeeds and changes no pet. -/
theorem processApplication_total_on_inbounds_witness :
    processApplication
      { initialState with applications := [Application.create 1 "alice123".data "Bella".data] }
      0 true =
      .ok { initialState with
            applications :=
              ([Application.create 1 "alice123".data "Bella".data]).set 0
                (([Application.create 1 "alice123".data "Bella".data]).getD 0 dummyApp).approve } :=
  (processApplication_total_on_inbounds
    { initialState with applications := [Application.create 1 "alice123".data "Bella".data] }
    0 true).1 (by decide)
    (fun p hp => by
      rcases List.mem_cons.mp hp with rfl | hp2
      · decide
      · rcases List.mem_singleton.mp hp2 with rfl
        decide)

/-! ## Terminal statuses and the admin processing menu -/

theorem status_set_lemma (apps : List Application) (idx : Nat) (a b : Application)
    (hget : apps.get? idx = some a) (hpend : a.status = "Pending".data)
    (hb : b.status = "Approved".data ∨ b.status = "Rejected".data) (i : Nat) :
    ((apps.getD i dummyApp).status ≠ "Pending".data →
      ((apps.set idx b).getD i dummyApp).status = (apps.getD i dummyApp).status)
    ∧ (((apps.set idx b).getD i dummyApp).status ≠ (apps.getD i dummyApp).status →
      (apps.getD i dummyApp).status = "Pending".data
      ∧ (((apps.set idx b).getD i dummyApp).status = "Approved".data
         ∨ ((apps.set idx b).getD i dummyApp).status = "Rejected".data)) := by
  have hlen : idx < apps.length := by
    by_contra hc
    rw [List.get?_eq_none.mpr (by omega)] at hget
    exact Option.noConfusion hget
  have hgetD : apps.getD idx dummyApp = a := by
    rw [List.getD_eq_getD_get?, hget]
    rfl
  by_cases hi : idx = i
  · subst hi
    rw [getD_set_self apps idx b dummyApp hlen, hgetD]
    exact ⟨fun h => absurd hpend h, fun _ => ⟨hpend, hb⟩⟩
  · rw [getD_set_ne apps idx i b dummyApp hi]
    exact ⟨fun _ => rfl, fun h => absurd rfl h⟩

/-- Counterexample to claim C3: the repository-level processApplication does
not treat Approved as terminal.  The state c3Approved is reachable (create
one application, approve it) and holds an Approved application, yet calling
processApplication 0 false on it overwrites the status with Rejected. -/
theorem processApplication_overwrites_terminal_status :
    Reachable c3Approved
    ∧ (c3Approved.applications.getD 0 dummyApp).status = "Approved".data
    ∧ 0 < c3Approved.applications.length
    ∧ processApplication c3Approved 0 false = .ok c3Rejected
    ∧ (c3Rejected.applications.getD 0 dummyApp).status = "Rejected".data
    ∧ "Rejected".data ≠ "Approved".data := by
  refine ⟨?_, by decide, by decide, by decide, by decide, by decide⟩
  have h1 : Reachable c3Pending :=
    Reachable.createApplication initialState "alice123".data "Rex".data Reachable.init
  exact Reachable.processApplication c3Pending c3Approved 0 true h1 (by decide)

/-- Claim C3 (amended): the admin processing menu only offers Pending
applications, so one pass of it never throws, never changes the status of an
application that is already Approved or Rejected, and any status it does
change goes from Pending to Approved or to Rejected.  The raw
processApplication, by contrast, overwrites the status at whatever index it
is handed (see the counterexample). -/
theorem adminProcessStep_preserves_decided (s : SystemState) (choice : Nat)
    (approve : Bool) :
    (∀ e, adminProcessStep s choice approve ≠ .error e)
    ∧ (∀ s', adminProcessStep s choice approve = .ok s' →
        ∀ i, ((s.applications.getD i dummyApp).status ≠ "Pending".data →
                (s'.applications.getD i dummyApp).status
                  = (s.applications.getD i dummyApp).status)
             ∧ ((s'.applications.getD i dummyApp).status
                  ≠ (s.applications.getD i dummyApp).status →
                (s.applications.getD i dummyApp).status = "Pending".data
                ∧ ((s'.applications.getD i dummyApp).status = "Approved".data
                   ∨ (s'.applications.getD i dummyApp).status = "Rejected".data))) := by
  by_cases h1 : (pendingIndices s).isEmpty = true
  · constructor
    · intro e h
      rw [adminProcessStep, if_pos h1] at h
      exact Except.noConfusion h
    · intro s' hs' i
      rw [adminProcessStep, if_pos h1] at hs'
      injection hs' with hs'
      subst hs'
      exact ⟨fun _ => rfl, fun h => absurd rfl h⟩
  · by_cases h2 : choice = 0
    · constructor
      · intro e h
        rw [adminProcessStep, if_neg h1, if_pos h2] at h
        exact Except.noConfusion h
      · intro s' hs' i
        rw [adminProcessStep, if_neg h1, if_pos h2] at hs'
        injection hs' with hs'
        subst hs'
        exact ⟨fun _ => rfl, fun h => absurd rfl h⟩
    · cases hsome : (pendingIndices s).get? (choice - 1) with
      | none =>
          constructor
          · intro e h
            rw [adminProcessStep, if_neg h1, if_neg h2, hsome] at h
            exact Except.noConfusion h
          · intro s' hs' i
            rw [adminProcessStep, if_neg h1, if_neg h2, hsome] at hs'
            injection hs' with hs'
            subst hs'
            exact ⟨fun _ => rfl, fun h => absurd rfl h⟩
      | some appIdx =>
          obtain ⟨hrange, hpred⟩ := List.mem_filter.mp (List.get?_mem hsome)
          cases hget : s.applications.get? appIdx with
          | none =>
              rw [hget] at hpred
              exact absurd hpred (by simp)
          | some a =>
              rw [hget] at hpred
              have hpend : a.status = "Pending".data := by
                simpa using hpred
              constructor
              · intro e h
                rw [adminProcessStep, if_neg h1, if_neg h2, hsome] at h
                simp only [processApplication, hget] at h
                cases approve <;> simp at h
              · intro s' hs' i
                rw [adminProcessStep, if_neg h1, if_neg h2, hsome] at hs'
                simp only [processApplication, hget] at hs'
                cases approve
                · simp only [Bool.false_eq_true, if_false] at hs'
                  injection hs' with hs'
                  subst hs'
                  exact status_set_lemma s.applications appIdx a a.reject hget hpend
                    (Or.inr rfl) i
                · simp only [eq_self_iff_true, if_true] at hs'
                  injection hs' with hs'
                  subst hs'
                  exact status_set_lemma s.applications appIdx a a.approve hget hpend
                    (Or.inl rfl) i

/-- Concrete instance of the amended C3 theorem: one admin processing pass
on the reachable approved-application state throws nothing, and since its
only application is already Approved the pass changes no status. -/
theorem adminProcessStep_preserves_decided_witness :
    (∀ e, adminProcessStep c3Approved 1 false ≠ .error e)
    ∧ (∀ s', adminProcessStep c3Approved 1 false = .ok s' →
        ∀ i, ((c3Approved.applications.getD i dummyApp).status ≠ "Pending".data →
                (s'.applications.getD i dummyApp).status
                  = (c3Approved.applications.getD i dummyApp).status)
             ∧ ((s'.applications.getD i dummyApp).status
                  ≠ (c3Approved.applications.getD i dummyApp).status →
                (c3Approved.applications.getD i dummyApp).status = "Pending".data
                ∧ ((s'.applications.getD i dummyApp).status = "Approved".data
                   ∨ (s'.applications.getD i dummyApp).status = "Rejected".data))) :=
  adminProcessStep_preserves_decided c3Approved 1 false

/-! ## Deleting pets -/

/-- Counterexample to claim C4: deletePet removes only the pet.  In the
reachable state c4State (single pet Rex, one pending application for Rex)
deleting pet 0 empties the pet list but the pending application referencing
Rex survives untouched, contradicting the claimed cascade. -/
theorem deletePet_leaves_applications :
    Reachable c4State
    ∧ deletePet c4State 0 = .ok c4After
    ∧ (c4State.pets.getD 0 dummyPet).name = "Rex".data
    ∧ c4After.pets = []
    ∧ c4After.applications = [Application.create 1 "alice123".data "Rex".data]
    ∧ (c4After.applications.getD 0 dummyApp).status = "Pending".data
    ∧ (c4After.applications.getD 0 dummyApp).petName = "Rex".data := by
  refine ⟨?_, by decide, by decide, by decide, by decide, by decide, by decide⟩
  have h1 : Reachable c4Intermediate :=
    Reachable.deletePet initialState c4Intermediate 0 Reachable.init (by decide)
  have h2 := Reachable.createApplication c4Intermediate "alice123".data "Rex".data h1
  have he : createApplication c4Intermediate "alice123".data "Rex".data = c4State := by
    decide
  rw [he] at h2
  exact h2

/-- Claim C4 (amended): for every in-bounds pet index, deletePet removes
exactly the pet at that index (the list shrinks by one and keeps everything
before and after the index) and leaves the application list — pending
applications for the deleted pet included — completely unchanged. -/
theorem deletePet_no_cascade (s : SystemState) (index : Nat)
    (h : index < s.pets.length) :
    deletePet s index
      = .ok { s with pets := s.pets.take index ++ s.pets.drop (index + 1) }
    ∧ (s.pets.take index ++ s.pets.drop (index + 1)).length = s.pets.length - 1 := by
  constructor
  · rw [deletePet, if_pos h, List.eraseIdx_eq_take_drop_succ]
  · have hlen := List.length_eraseIdx_add_one (l := s.pets) (i := index) h
    rw [← List.eraseIdx_eq_take_drop_succ]
    omega

/-- Concrete instance of the amended C4 theorem at c4State. -/
theorem deletePet_no_cascade_witness :
    deletePet c4State 0
      = .ok { c4State with pets := c4State.pets.take 0 ++ c4State.pets.drop 1 }
    ∧ (c4State.pets.take 0 ++ c4State.pets.drop 1).length = c4State.pets.length - 1 :=
  deletePet_no_cascade c4State 0 (by decide)

/-! ## Registration and duplicate usernames -/

/-- Claim C5: registering a username that equals the username of a user
already in the list fails with the duplicate-username error, so no user
record is appended and the user list is left unchanged. -/
theorem registerUser_rejects_duplicate (s : SystemState) (username password : List Char)
    (hc : username ≠ "0".data)
    (hdup : ∃ u ∈ s.users, u.username = username) :
    registerUser s username password
      = .error (.invalidInput "Username already exists".data) := by
  rw [registerUser, if_neg hc, if_pos]
  exact List.any_eq_true.mpr (by
    obtain ⟨u, hu, he⟩ := hdup
    exact ⟨u, hu, by simp [he]⟩)

/-- Concrete instance of the C5 theorem: re-registering the bootstrap admin
username fails with the duplicate error. -/
theorem registerUser_rejects_duplicate_witness :
    registerUser initialState "admin".data "pw1determined".data
      = .error (.invalidInput "Username already exists".data) :=
  registerUser_rejects_duplicate initialState "admin".data "pw1determined".data
    (by decide)
    ⟨{ username := "admin".data, password := "admin123".data, role := Role.ADMIN },
     by decide, rfl⟩

/-! ## Application id allocation -/

/-- Counterexample to claim C6: when applications.dat lacks the NEXT_ID
header, loading keeps nextAppID at its default 1 while an application with
id 1 is loaded, and the next createApplication hands out id 1 again — an id
already held in the repository. -/
theorem createApplication_reuses_id_after_headerless_load :
    loadApplicationsFromFile (some ["1,alice,Rex,Pending".data]) initialState
      = some c6State
    ∧ c6State.nextAppID = 1
    ∧ c6State.applications.map Application.id = [1]
    ∧ (createApplication c6State "bob99".data "Rex".data).applications.map
        Application.id = [1, 1] := by
  refine ⟨?_, by decide, by decide, by decide⟩
  decide

/-- Claim C6 (amended): createApplication appends exactly one application
carrying the current nextAppID and increments the counter; therefore
whenever every application id in the repository is below nextAppID — true of
a fresh session and preserved by each creation, but guaranteed after loading
applications.dat only when its NEXT_ID header is present and exceeds every
stored id, as files written by this program ensure — the new id is strictly
greater than every id already held, so ids never repeat and grow strictly
within a session. -/
theorem createApplication_fresh_id (s : SystemState) (uname pname : List Char)
    (h : ∀ a ∈ s.applications, a.id < s.nextAppID) :
    (createApplication s uname pname).applications.length
      = s.applications.length + 1
    ∧ (createApplication s uname pname).applications.take s.applications.length
        = s.applications
    ∧ (∀ a ∈ s.applications,
        a.id < ((createApplication s uname pname).applications.getD
                  s.applications.length dummyApp).id)
    ∧ (∀ a ∈ (createApplication s uname pname).applications,
        a.id < (createApplication s uname pname).nextAppID)
    ∧ s.nextAppID < (createApplication s uname pname).nextAppID := by
  refine ⟨by simp [createApplication], ?_, ?_, ?_, ?_⟩
  · simp only [createApplication]
    exact List.take_left s.applications _
  · intro a ha
    simp only [createApplication, getD_append_length]
    exact h a ha
  · intro a ha
    simp only [createApplication] at ha ⊢
    rcases List.mem_append.mp ha with hm | hm
    · have := h a hm
      omega
    · rcases List.mem_singleton.mp hm with rfl
      simp [Application.create]
  · simp [createApplication]

/-- Concrete instance of the amended C6 theorem at the fresh state. -/
theorem createApplication_fresh_id_witness :
    (createApplication initialState "bob99".data "Rex".data).applications.length
      = initialState.applications.length + 1
    ∧ (createApplication initialState "bob99".data "Rex".data).applications.take
        initialState.applications.length = initialState.applications
    ∧ (∀ a ∈ initialState.applications,
        a.id < ((createApplication initialState "bob99".data "Rex".data).applications.getD
                  initialState.applications.length dummyApp).id)
    ∧ (∀ a ∈ (createApplication initialState "bob99".data "Rex".data).applications,
        a.id < (createApplication initialState "bob99".data "Rex".data).nextAppID)
    ∧ initialState.nextAppID
        < (createApplication initialState "bob99".data "Rex".data).nextAppID :=
  createApplication_fresh_id initialState "bob99".data "Rex".data
    (fun a ha => absurd ha (List.not_mem_nil a))

/-! ## Constructor pet seeding -/

theorem intToChars_two : intToChars 2 = ['2'] := by
  rw [intToChars, if_neg (by omega), show ((2 : Int).toNat) = 2 from rfl,
    natToDigits_eq]
  decide

theorem intToChars_three : intToChars 3 = ['3'] := by
  rw [intToChars, if_neg (by omega), show ((3 : Int).toNat) = 3 from rfl,
    natToDigits_eq]
  decide

theorem serialize_default_whiskers :
    Pet.serialize (Pet.create "Whiskers".data "Siamese".data 2 true)
      = "Whiskers,Siamese,2,1,0".data := by
  rw [Pet.serialize,
    show (Pet.create "Whiskers".data "Siamese".data 2 true).age = 2 from rfl,
    intToChars_two]
  decide

theorem serialize_default_rex :
    Pet.serialize (Pet.create "Rex".data "Labrador".data 3 true)
      = "Rex,Labrador,3,1,0".data := by
  rw [Pet.serialize,
    show (Pet.create "Rex".data "Labrador".data 3 true).age = 3 from rfl,
    intToChars_three]
  decide

/-- Claim C10: at construction, when loading pets.dat produces no pets,
exactly the two default pets — Whiskers the Siamese aged 2 and Rex the
Labrador aged 3, both vaccinated and unadopted — are seeded and their
serializations persisted; when pets were loaded, they are kept as-is and no
default pet is added. -/
theorem constructor_seeds_default_pets (file : Option (List (List Char))) :
    (loadPetsFromFile file = [] →
      constructorPets file =
        ([{ name := "Whiskers".data, breed := "Siamese".data, age := 2,
            vaccinated := true, adopted := false },
          { name := "Rex".data, breed := "Labrador".data, age := 3,
            vaccinated := true, adopted := false }],
         some ["Whiskers,Siamese,2,1,0".data, "Rex,Labrador,3,1,0".data]))
    ∧ (loadPetsFromFile file ≠ [] →
        constructorPets file = (loadPetsFromFile file, none)) := by
  constructor
  · intro h
    simp only [constructorPets, h]
    rw [if_pos (show List.isEmpty ([] : List Pet) = true from rfl)]
    have e1 : List.map Pet.serialize defaultPets
        = ["Whiskers,Siamese,2,1,0".data, "Rex,Labrador,3,1,0".data] := by
      rw [defaultPets, List.map_cons, List.map_cons, List.map_nil,
        serialize_default_whiskers, serialize_default_rex]
    rw [e1]
    decide
  · intro h
    have hne : (loadPetsFromFile file).isEmpty = false := by
      cases hh : loadPetsFromFile file with
      | nil => exact absurd hh h
      | cons a b => rfl
    simp only [constructorPets, hne, Bool.false_eq_true, if_false]

/-- Concrete instance of the C10 theorem: with no pets.dat, the two default
pets are seeded and written out. -/
theorem constructor_seeds_default_pets_witness :
    constructorPets none =
      ([{ name := "Whiskers".data, breed := "Siamese".data, age := 2,
          vaccinated := true, adopted := false },
        { name := "Rex".data, breed := "Labrador".data, age := 3,
          vaccinated := true, adopted := false }],
       some ["Whiskers,Siamese,2,1,0".data, "Rex,Labrador,3,1,0".data]) :=
  (constructor_seeds_default_pets none).1 rfl

end PetAdoption
